import Mathlib

set_option linter.unusedVariables false

/-!
Shallow embedding of the tursolf todo application (src/db.ts and src/App.tsx).

The local store is the SQLite table `todos (id, remote_id, text, completed,
dirty, is_deleted, created_at)`, modelled as a list of `Todo` rows in rowid
order together with the AUTOINCREMENT counter.  The remote store is the remote
`todos` table `{id, text, completed}` with its own id counter.  Remote calls go
through the libsql client and can fail with a network error; this is modelled
by a failure schedule (one `Bool` per remote call, `true` = the call throws,
an exhausted schedule means every further call succeeds) and every attempted
remote call is recorded in a trace so that "no remote call is made" is an
observable statement.  A thrown error propagates out of `syncWithRemote`
(its `try`/`catch` rethrows), which is modelled by the `Res` result type that
keeps the state reached at the moment of the throw.

JavaScript truthiness matters in two places of the source
(`if (todo.remote_id)` and `else if (!todo.remote_id)`): a `remote_id` of
`null` and of `0` are both falsy, which `jsTruthy` captures.  The SQL
predicates (`remote_id IS NULL`, `dirty = 1`, `dirty = 0`, `is_deleted = 0`)
are exact comparisons and are modelled as such.
-/

/-- A row of the local `todos` table (the `Todo` interface of src/db.ts). -/
structure Todo where
  id : Nat
  remote_id : Option Nat
  text : String
  completed : Nat
  dirty : Nat
  is_deleted : Nat
  created_at : Nat
deriving DecidableEq, Repr

/-- A row of the remote `todos` table as seen by the sync code: `SELECT *`
yields `{id, text, completed}`. -/
structure RemoteTodo where
  id : Nat
  text : String
  completed : Nat
deriving DecidableEq, Repr

/-- Errors a remote call can throw (network / transport failure of the
libsql client). -/
inductive SyncErr where
  | remoteUnavailable
deriving DecidableEq, Repr

/-- One attempted remote call, recorded in the trace. -/
inductive RemoteCall where
  | delete (id : Nat)
  | insert (text : String) (completed : Nat)
  | update (id : Nat) (text : String) (completed : Nat)
  | listAll
deriving DecidableEq, Repr

/-- The whole observable machine state: local table, remote table, their
AUTOINCREMENT counters, the frozen clock used for `created_at` defaults,
the trace of attempted remote calls and the failure schedule. -/
structure SyncState where
  todos : List Todo
  nextLocalId : Nat
  remote : List RemoteTodo
  nextRemoteId : Nat
  now : Nat
  trace : List RemoteCall
  schedule : List Bool
deriving DecidableEq, Repr

/-- Result of a fallible step: like a thrown JS exception, an error carries
the state reached so far (local mutations already performed persist). -/
inductive Res (α : Type) where
  | ok (a : α) (s : SyncState)
  | error (e : SyncErr) (s : SyncState)
deriving DecidableEq, Repr

/-- State carried by a result, whether or not it is an error. -/
def Res.stateOf {α : Type} : Res α → SyncState
  | Res.ok _ s => s
  | Res.error _ s => s

/-- Did the step succeed? -/
def Res.isOk {α : Type} : Res α → Bool
  | Res.ok _ _ => true
  | Res.error _ _ => false

/-- JavaScript truthiness of a nullable number: `null` and `0` are falsy. -/
def jsTruthy : Option Nat → Bool
  | none => false
  | some n => n != 0

/-- Consume one entry of the failure schedule (an exhausted schedule means
the call succeeds). -/
def takeFail (st : SyncState) : Bool × SyncState :=
  match st.schedule with
  | [] => (false, st)
  | b :: rest => (b, { st with schedule := rest })

/-- Remote `DELETE FROM todos WHERE id = ?` (db.ts lines 57-60).  SQL DELETE
of an absent id succeeds, deleting nothing. -/
def remoteDelete (rid : Nat) (st : SyncState) : Res Unit :=
  let p := takeFail st
  let st1 := { p.2 with trace := p.2.trace ++ [RemoteCall.delete rid] }
  if p.1 then Res.error SyncErr.remoteUnavailable st1
  else Res.ok () { st1 with remote := st1.remote.filter (fun r => r.id != rid) }

/-- Remote `INSERT INTO todos (text, completed) VALUES (?, ?) RETURNING id`
(db.ts lines 67-70): assigns the next remote id and returns it. -/
def remoteInsert (text : String) (completed : Nat) (st : SyncState) : Res Nat :=
  let p := takeFail st
  let st1 := { p.2 with trace := p.2.trace ++ [RemoteCall.insert text completed] }
  if p.1 then Res.error SyncErr.remoteUnavailable st1
  else Res.ok st1.nextRemoteId
    { st1 with
      remote := st1.remote ++ [{ id := st1.nextRemoteId, text := text, completed := completed }]
      nextRemoteId := st1.nextRemoteId + 1 }

/-- Remote `UPDATE todos SET text = ?, completed = ? WHERE id = ?` (db.ts
lines 76-79).  Updating an absent id succeeds, updating nothing. -/
def remoteUpdate (rid : Nat) (text : String) (completed : Nat) (st : SyncState) : Res Unit :=
  let p := takeFail st
  let st1 := { p.2 with trace := p.2.trace ++ [RemoteCall.update rid text completed] }
  if p.1 then Res.error SyncErr.remoteUnavailable st1
  else Res.ok ()
    { st1 with remote := st1.remote.map (fun r =>
        if r.id == rid then { r with text := text, completed := completed } else r) }

/-- Remote `SELECT * FROM todos` (db.ts line 85): the full snapshot. -/
def remoteListAll (st : SyncState) : Res (List RemoteTodo) :=
  let p := takeFail st
  let st1 := { p.2 with trace := p.2.trace ++ [RemoteCall.listAll] }
  if p.1 then Res.error SyncErr.remoteUnavailable st1
  else Res.ok st1.remote st1

/-- Local `DELETE FROM todos WHERE id = ?` (db.ts line 63). -/
def eraseLocal (i : Nat) (st : SyncState) : SyncState :=
  { st with todos := st.todos.filter (fun t => t.id != i) }

/-- Local `UPDATE todos SET remote_id = ?, dirty = 0 WHERE id = ?`
(db.ts line 72). -/
def applyRemoteAssignment (i : Nat) (rid : Nat) (st : SyncState) : SyncState :=
  { st with todos := st.todos.map (fun t =>
      if t.id == i then { t with remote_id := some rid, dirty := 0 } else t) }

/-- Local `UPDATE todos SET dirty = 0 WHERE id = ?` (db.ts line 80). -/
def clearDirty (i : Nat) (st : SyncState) : SyncState :=
  { st with todos := st.todos.map (fun t =>
      if t.id == i then { t with dirty := 0 } else t) }

/-- The push-candidate predicate of the SQL
`SELECT * FROM todos WHERE remote_id IS NULL OR dirty = 1` (db.ts line 51). -/
def isSyncCandidate (t : Todo) : Bool :=
  t.remote_id == none || t.dirty == 1

/-- The push-candidate snapshot taken at the start of the round. -/
def listSyncCandidates (st : SyncState) : List Todo :=
  st.todos.filter isSyncCandidate

/-- Push one candidate (the body of the `for` loop, db.ts lines 53-82):
tombstones are deleted remotely (when `todo.remote_id` is truthy) and erased
locally; rows with falsy `remote_id` are inserted remotely and the returned
id recorded; the rest are updated remotely and their dirty flag cleared.
An exception from a remote call propagates immediately. -/
def pushOne (todo : Todo) (st : SyncState) : Res Unit :=
  if todo.is_deleted == 1 then
    if jsTruthy todo.remote_id then
      match remoteDelete (todo.remote_id.getD 0) st with
      | Res.error e s => Res.error e s
      | Res.ok _ s => Res.ok () (eraseLocal todo.id s)
    else Res.ok () (eraseLocal todo.id st)
  else if !(jsTruthy todo.remote_id) then
    match remoteInsert todo.text todo.completed st with
    | Res.error e s => Res.error e s
    | Res.ok rid s => Res.ok () (applyRemoteAssignment todo.id rid s)
  else
    match remoteUpdate (todo.remote_id.getD 0) todo.text todo.completed st with
    | Res.error e s => Res.error e s
    | Res.ok _ s => Res.ok () (clearDirty todo.id s)

/-- The push loop over the candidate snapshot: sequential, and the first
thrown error aborts the remaining iterations (no try/catch per candidate). -/
def pushAll (cs : List Todo) (st : SyncState) : Res Unit :=
  match cs with
  | [] => Res.ok () st
  | c :: rest =>
    match pushOne c st with
    | Res.error e s => Res.error e s
    | Res.ok _ s => pushAll rest s

/-- The pull-phase local delete (db.ts lines 90-100): when the snapshot is
non-empty, `DELETE FROM todos WHERE remote_id IS NOT NULL AND remote_id NOT
IN (...) AND dirty = 0`; when it is empty, `DELETE FROM todos WHERE
remote_id IS NOT NULL AND dirty = 0`. -/
def pullDelete (remoteIds : List Nat) (st : SyncState) : SyncState :=
  if remoteIds.length > 0 then
    { st with todos := st.todos.filter (fun t =>
        !(t.remote_id.isSome && !(remoteIds.contains (t.remote_id.getD 0)) && t.dirty == 0)) }
  else
    { st with todos := st.todos.filter (fun t =>
        !(t.remote_id.isSome && t.dirty == 0)) }

/-- The row transformer of the upsert's `ON CONFLICT(remote_id) DO UPDATE SET
text = CASE WHEN dirty = 0 THEN excluded.text ELSE todos.text END, completed =
CASE WHEN dirty = 0 THEN excluded.completed ELSE todos.completed END`
(db.ts lines 106-108), applied to every local row; rows whose `remote_id`
does not match are unchanged. -/
def mergeRemote (r : RemoteTodo) (t : Todo) : Todo :=
  if t.remote_id == some r.id then
    { t with
      text := (if t.dirty == 0 then r.text else t.text)
      completed := (if t.dirty == 0 then r.completed else t.completed) }
  else t

/-- The local row created by the upsert's INSERT arm: `remote_id`, `text`,
`completed` from the snapshot row, `dirty = 0`, `is_deleted = 0`, and schema
defaults for `id` and `created_at`. -/
def freshFromRemote (r : RemoteTodo) (st : SyncState) : Todo :=
  { id := st.nextLocalId, remote_id := some r.id, text := r.text,
    completed := r.completed, dirty := 0, is_deleted := 0, created_at := st.now }

/-- The pull-phase upsert (db.ts lines 102-110): `INSERT INTO todos
(remote_id, text, completed, dirty, is_deleted) VALUES (?, ?, ?, 0, 0) ON
CONFLICT(remote_id) DO UPDATE SET ...`.  A conflict happens exactly when a
local row already carries this `remote_id`; otherwise a fresh local row is
inserted with the schema defaults for `id` and `created_at`. -/
def upsertFromRemote (r : RemoteTodo) (st : SyncState) : SyncState :=
  if st.todos.any (fun t => t.remote_id == some r.id) then
    { st with todos := st.todos.map (mergeRemote r) }
  else
    { st with
      todos := st.todos ++ [freshFromRemote r st]
      nextLocalId := st.nextLocalId + 1 }

/-- Fold the upsert over the snapshot rows, in snapshot order. -/
def pullUpserts (rows : List RemoteTodo) (st : SyncState) : SyncState :=
  rows.foldl (fun acc r => upsertFromRemote r acc) st

/-- The pull phase (db.ts lines 84-110): fetch the snapshot, apply the
clean-only local delete, then upsert every snapshot row. -/
def pullPhase (st : SyncState) : Res Unit :=
  match remoteListAll st with
  | Res.error e s => Res.error e s
  | Res.ok rows s =>
    Res.ok () (pullUpserts rows (pullDelete (rows.map (fun r => r.id)) s))

/-- One full sync round (db.ts lines 46-118): take the candidate snapshot,
push each candidate, then pull.  The surrounding `try`/`catch` rethrows, so
any thrown error is the result of the round. -/
def syncWithRemote (st : SyncState) : Res Unit :=
  match pushAll (listSyncCandidates st) st with
  | Res.error e s => Res.error e s
  | Res.ok _ s => pullPhase s

/-- The row created by `INSERT INTO todos (text) VALUES (?)`
(App.tsx line 85): every column other than `text` takes its schema default,
in particular `dirty = 0` and `remote_id = NULL`. -/
def newTodo (i : Nat) (text : String) (now : Nat) : Todo :=
  { id := i, remote_id := none, text := text, completed := 0, dirty := 0,
    is_deleted := 0, created_at := now }

/-- Model of JavaScript's `String.prototype.trim`: strip leading and
trailing whitespace (written over the character list so that it evaluates
inside the kernel). -/
def strTrim (s : String) : String :=
  String.mk (((s.data.dropWhile Char.isWhitespace).reverse.dropWhile
    Char.isWhitespace).reverse)

/-- App.tsx `handleAddTodo` (lines 80-93): guarded by
`if (!inputValue.trim() ...) return` (the empty string is falsy), then
inserts a row with only `text` given. -/
def handleAddTodo (inputValue : String) (st : SyncState) : SyncState :=
  if (strTrim inputValue).data.isEmpty then st
  else
    { st with
      todos := st.todos ++ [newTodo st.nextLocalId inputValue st.now]
      nextLocalId := st.nextLocalId + 1 }

/-- App.tsx `handleToggleTodo` (lines 95-106): `UPDATE todos SET completed =
?, dirty = 1 WHERE id = ?` with `currentStatus ? 0 : 1` (JS truthiness of the
number). -/
def handleToggleTodo (i : Nat) (currentStatus : Nat) (st : SyncState) : SyncState :=
  { st with todos := st.todos.map (fun t =>
      if t.id == i then
        { t with completed := (if currentStatus != 0 then 0 else 1), dirty := 1 }
      else t) }

/-- App.tsx `handleDeleteTodo` (lines 108-119): `UPDATE todos SET is_deleted
= 1, dirty = 1 WHERE id = ?`. -/
def handleDeleteTodo (i : Nat) (st : SyncState) : SyncState :=
  { st with todos := st.todos.map (fun t =>
      if t.id == i then { t with is_deleted := 1, dirty := 1 } else t) }

/-- Stable insertion of a row into a list sorted by `created_at` descending:
the inserted row goes in front of the first row whose `created_at` is not
greater.  Models the sorter applied to the rowid-order table scan; the SQL
has no tie-break clause, so equal timestamps keep scan order. -/
def insertDesc (t : Todo) : List Todo → List Todo
  | [] => [t]
  | u :: us => if u.created_at ≤ t.created_at then t :: u :: us else u :: insertDesc t us

/-- Sort by `created_at` descending, stably (scan order preserved on ties). -/
def sortByCreatedDesc : List Todo → List Todo
  | [] => []
  | t :: ts => insertDesc t (sortByCreatedDesc ts)

/-- App.tsx `fetchTodos` (lines 16-19): `SELECT * FROM todos WHERE
is_deleted = 0 ORDER BY created_at DESC`. -/
def fetchTodos (st : SyncState) : List Todo :=
  sortByCreatedDesc (st.todos.filter (fun t => t.is_deleted == 0))

/-- The effect of `pushOne` when its remote call succeeds (an empty failure
schedule): the same branches as `pushOne` with the remote effect inlined. -/
def pushOnePure (c : Todo) (st : SyncState) : SyncState :=
  if c.is_deleted == 1 then
    if jsTruthy c.remote_id then
      eraseLocal c.id
        { st with
          trace := st.trace ++ [RemoteCall.delete (c.remote_id.getD 0)]
          remote := st.remote.filter (fun r => r.id != c.remote_id.getD 0) }
    else eraseLocal c.id st
  else if !(jsTruthy c.remote_id) then
    applyRemoteAssignment c.id st.nextRemoteId
      { st with
        trace := st.trace ++ [RemoteCall.insert c.text c.completed]
        remote := st.remote ++
          [{ id := st.nextRemoteId, text := c.text, completed := c.completed }]
        nextRemoteId := st.nextRemoteId + 1 }
  else
    clearDirty c.id
      { st with
        trace := st.trace ++ [RemoteCall.update (c.remote_id.getD 0) c.text c.completed]
        remote := st.remote.map (fun r =>
          if r.id == c.remote_id.getD 0 then { r with text := c.text, completed := c.completed }
          else r) }

/-- The push loop when every remote call succeeds. -/
def pushAllPure (cs : List Todo) (st : SyncState) : SyncState :=
  cs.foldl (fun s c => pushOnePure c s) st

/-- One whole round when every remote call succeeds: push the candidate
snapshot, then fetch (recorded in the trace), clean-delete, and upsert. -/
def syncPure (st : SyncState) : SyncState :=
  let sp := pushAllPure (listSyncCandidates st) st
  pullUpserts sp.remote
    (pullDelete (sp.remote.map (fun r => r.id))
      { sp with trace := sp.trace ++ [RemoteCall.listAll] })

/-- Store invariants SQLite enforces through the schema: `id` is a primary
key (unique), remote `id` is a primary key (unique), and AUTOINCREMENT hands
out fresh remote ids. -/
def WFSt (st : SyncState) : Prop :=
  (st.todos.map (fun t => t.id)).Nodup ∧
  (st.remote.map (fun r => r.id)).Nodup ∧
  (∀ r ∈ st.remote, r.id < st.nextRemoteId)

/-- The state a successful round leaves behind: every local row carries a
remote id and is not dirty, every clean row agrees with a remote row, every
remote row has a local counterpart, and remote ids are unique. -/
def Synced (st : SyncState) : Prop :=
  (∀ t ∈ st.todos, t.remote_id ≠ none ∧ t.dirty ≠ 1) ∧
  (∀ t ∈ st.todos, t.dirty = 0 →
    ∃ r ∈ st.remote, t.remote_id = some r.id ∧ t.text = r.text ∧ t.completed = r.completed) ∧
  (∀ r ∈ st.remote, ∃ t ∈ st.todos, t.remote_id = some r.id) ∧
  (st.remote.map (fun r => r.id)).Nodup

/-- Empty store, frozen clock at 10. -/
def stEmpty : SyncState :=
  { todos := [], nextLocalId := 1, remote := [], nextRemoteId := 1, now := 10,
    trace := [], schedule := [] }

/-- One never-pushed local todo, empty remote, all remote calls succeed. -/
def stOne : SyncState :=
  { todos := [{ id := 1, remote_id := none, text := "a", completed := 0, dirty := 0,
                is_deleted := 0, created_at := 10 }],
    nextLocalId := 2, remote := [], nextRemoteId := 1, now := 10,
    trace := [], schedule := [] }

/-- Two never-pushed local todos and a schedule that fails the first remote
call only (the push insert of the first candidate); every later call would
succeed. -/
def stTwoFail : SyncState :=
  { todos := [{ id := 1, remote_id := none, text := "a", completed := 0, dirty := 0,
                is_deleted := 0, created_at := 10 },
              { id := 2, remote_id := none, text := "b", completed := 0, dirty := 0,
                is_deleted := 0, created_at := 11 }],
    nextLocalId := 3, remote := [], nextRemoteId := 1, now := 12,
    trace := [], schedule := [true] }

/-- A tombstoned, already-pushed row (remote id 5) whose remote delete will
fail with RemoteUnavailable. -/
def tombstone5 : Todo :=
  { id := 1, remote_id := some 5, text := "a", completed := 0, dirty := 1,
    is_deleted := 1, created_at := 10 }

/-- Store holding `tombstone5`, remote still has row 5, first remote call
fails. -/
def stDeleteFail : SyncState :=
  { todos := [tombstone5], nextLocalId := 2,
    remote := [{ id := 5, text := "a", completed := 0 }], nextRemoteId := 6,
    now := 10, trace := [], schedule := [true] }

/-- A tombstoned row carrying `remote_id = 0` (non-null but JS-falsy). -/
def tombstone0 : Todo :=
  { id := 1, remote_id := some 0, text := "a", completed := 0, dirty := 1,
    is_deleted := 1, created_at := 10 }

/-- Store holding `tombstone0`; the remote still has a row with id 0. -/
def stZeroId : SyncState :=
  { todos := [tombstone0], nextLocalId := 2,
    remote := [{ id := 0, text := "a", completed := 0 }], nextRemoteId := 6,
    now := 10, trace := [], schedule := [] }

/-- Two visible rows with the same `created_at`, in rowid order 1 then 2. -/
def rowTieA : Todo :=
  { id := 1, remote_id := some 1, text := "a", completed := 0, dirty := 0,
    is_deleted := 0, created_at := 5 }

/-- Second row of the tie, higher rowid. -/
def rowTieB : Todo :=
  { id := 2, remote_id := some 2, text := "b", completed := 0, dirty := 0,
    is_deleted := 0, created_at := 5 }

/-- Store holding the two tied rows. -/
def stTie : SyncState :=
  { todos := [rowTieA, rowTieB], nextLocalId := 3, remote := [], nextRemoteId := 3,
    now := 12, trace := [], schedule := [] }

/-- A clean, already-pushed row (remote id 3). -/
def cleanRow3 : Todo :=
  { id := 1, remote_id := some 3, text := "a", completed := 0, dirty := 0,
    is_deleted := 0, created_at := 10 }

/-- Store holding `cleanRow3`, with its remote counterpart. -/
def stClean3 : SyncState :=
  { todos := [cleanRow3], nextLocalId := 2,
    remote := [{ id := 3, text := "a", completed := 0 }], nextRemoteId := 4,
    now := 10, trace := [], schedule := [] }

/-- A tombstoned, dirty, already-pushed row (remote id 3). -/
def tombRow3 : Todo :=
  { id := 1, remote_id := some 3, text := "a", completed := 0, dirty := 1,
    is_deleted := 1, created_at := 10 }

/-- Store holding `tombRow3`, with its remote counterpart, all calls
succeeding. -/
def stTomb3 : SyncState :=
  { todos := [tombRow3], nextLocalId := 2,
    remote := [{ id := 3, text := "a", completed := 0 }], nextRemoteId := 4,
    now := 10, trace := [], schedule := [] }

/-- A tombstoned row that was never pushed. -/
def tombFresh : Todo :=
  { id := 1, remote_id := none, text := "a", completed := 0, dirty := 1,
    is_deleted := 1, created_at := 10 }

/-- Store holding `tombFresh`. -/
def stTombFresh : SyncState :=
  { todos := [tombFresh], nextLocalId := 2, remote := [], nextRemoteId := 1,
    now := 10, trace := [], schedule := [] }

/-- A dirty, already-pushed row (remote id 7) with a pending local edit. -/
def dirtyRow7 : Todo :=
  { id := 1, remote_id := some 7, text := "local", completed := 0, dirty := 1,
    is_deleted := 0, created_at := 10 }

/-- Store holding `dirtyRow7`. -/
def stDirty7 : SyncState :=
  { todos := [dirtyRow7], nextLocalId := 2,
    remote := [{ id := 7, text := "remote", completed := 1 }], nextRemoteId := 8,
    now := 10, trace := [], schedule := [] }

/-- The remote row that concurrently changed the text of remote id 7. -/
def remoteRow7 : RemoteTodo :=
  { id := 7, text := "remote", completed := 1 }

/-- `cleanRow3` after `handleToggleTodo 1 0`. -/
def toggledRow3 : Todo :=
  { cleanRow3 with completed := 1, dirty := 1 }

/-- `cleanRow3` after `handleDeleteTodo 1`. -/
def deletedRow3 : Todo :=
  { cleanRow3 with is_deleted := 1, dirty := 1 }

/-! ### General list helpers -/

theorem list_map_eq_self {α : Type} {l : List α} {f : α → α} (h : ∀ a ∈ l, f a = a) :
    l.map f = l := by
  induction l with
  | nil => rfl
  | cons a l ih =>
    simp only [List.map_cons]
    rw [h a (by simp), ih (fun b hb => h b (by simp [hb]))]

theorem list_foldl_fixed {α β : Type} {l : List β} {f : α → β → α} {x : α}
    (h : ∀ b ∈ l, f x b = x) : l.foldl f x = x := by
  induction l with
  | nil => rfl
  | cons b l ih =>
    simp only [List.foldl_cons]
    rw [h b (by simp)]
    exact ih (fun b' hb => h b' (by simp [hb]))

theorem nodup_map_filter {α β : Type} {l : List α} {f : α → β} {p : α → Bool}
    (h : (l.map f).Nodup) : ((l.filter p).map f).Nodup :=
  List.Nodup.sublist (List.Sublist.map f (List.filter_sublist l)) h

theorem nodup_map_map {α β : Type} {l : List α} {f : α → β} {g : α → α}
    (hg : ∀ a, f (g a) = f a) (h : (l.map f).Nodup) : ((l.map g).map f).Nodup := by
  rw [List.map_map]
  have he : List.map (f ∘ g) l = List.map f l := List.map_congr_left (fun a _ => hg a)
  rw [he]
  exact h

/-! ### Field-preservation facts about the operations -/

theorem pushOnePure_fields (c : Todo) (st : SyncState) :
    (pushOnePure c st).schedule = st.schedule ∧ (pushOnePure c st).now = st.now ∧
    (pushOnePure c st).nextLocalId = st.nextLocalId := by
  unfold pushOnePure eraseLocal applyRemoteAssignment clearDirty
  split
  · split <;> exact ⟨rfl, rfl, rfl⟩
  · split <;> exact ⟨rfl, rfl, rfl⟩

theorem pushAllPure_fields (cs : List Todo) (st : SyncState) :
    (pushAllPure cs st).schedule = st.schedule ∧ (pushAllPure cs st).now = st.now ∧
    (pushAllPure cs st).nextLocalId = st.nextLocalId := by
  induction cs generalizing st with
  | nil => exact ⟨rfl, rfl, rfl⟩
  | cons c rest ih =>
    have h1 := pushOnePure_fields c st
    have h2 := ih (pushOnePure c st)
    exact ⟨h2.1.trans h1.1, h2.2.1.trans h1.2.1, h2.2.2.trans h1.2.2⟩

theorem pullDelete_fields (ids : List Nat) (st : SyncState) :
    (pullDelete ids st).remote = st.remote ∧ (pullDelete ids st).schedule = st.schedule ∧
    (pullDelete ids st).trace = st.trace ∧ (pullDelete ids st).now = st.now ∧
    (pullDelete ids st).nextLocalId = st.nextLocalId ∧
    (pullDelete ids st).nextRemoteId = st.nextRemoteId := by
  unfold pullDelete
  split <;> exact ⟨rfl, rfl, rfl, rfl, rfl, rfl⟩

theorem upsertFromRemote_fields (r : RemoteTodo) (st : SyncState) :
    (upsertFromRemote r st).remote = st.remote ∧
    (upsertFromRemote r st).schedule = st.schedule ∧
    (upsertFromRemote r st).now = st.now ∧
    (upsertFromRemote r st).nextRemoteId = st.nextRemoteId := by
  unfold upsertFromRemote
  split <;> exact ⟨rfl, rfl, rfl, rfl⟩

theorem pullUpserts_fields (rows : List RemoteTodo) (st : SyncState) :
    (pullUpserts rows st).remote = st.remote ∧ (pullUpserts rows st).schedule = st.schedule := by
  induction rows generalizing st with
  | nil => exact ⟨rfl, rfl⟩
  | cons r rest ih =>
    have h1 := upsertFromRemote_fields r st
    have h2 := ih (upsertFromRemote r st)
    exact ⟨h2.1.trans h1.1, h2.2.trans h1.2.1⟩

/-! ### Reducing the fallible round to the pure round on an empty schedule -/

theorem pushOne_nil (c : Todo) (st : SyncState) (h : st.schedule = []) :
    pushOne c st = Res.ok () (pushOnePure c st) := by
  unfold pushOne pushOnePure remoteDelete remoteInsert remoteUpdate takeFail
  simp [h]
  split
  · split <;> rfl
  · split <;> rfl

theorem pushAll_nil (cs : List Todo) (st : SyncState) (h : st.schedule = []) :
    pushAll cs st = Res.ok () (pushAllPure cs st) := by
  induction cs generalizing st with
  | nil => rfl
  | cons c rest ih =>
    unfold pushAll
    rw [pushOne_nil c st h]
    exact ih (pushOnePure c st) ((pushOnePure_fields c st).1.trans h)

theorem pullPhase_nil (st : SyncState) (h : st.schedule = []) :
    pullPhase st = Res.ok () (pullUpserts st.remote
      (pullDelete (st.remote.map (fun r => r.id))
        { st with trace := st.trace ++ [RemoteCall.listAll] })) := by
  unfold pullPhase remoteListAll takeFail
  simp [h]

theorem sync_nil (st : SyncState) (h : st.schedule = []) :
    syncWithRemote st = Res.ok () (syncPure st) := by
  unfold syncWithRemote
  rw [pushAll_nil _ _ h]
  show pullPhase (pushAllPure (listSyncCandidates st) st) = Res.ok () (syncPure st)
  rw [pullPhase_nil _ ((pushAllPure_fields (listSyncCandidates st) st).1.trans h)]
  rfl

/-! ### Branch characterizations of the successful push step -/

theorem jsTruthy_ne_none {o : Option Nat} (h : jsTruthy o = true) : o ≠ none := by
  cases o with
  | none => simp [jsTruthy] at h
  | some n => simp

theorem pushOnePure_del_tru (c : Todo) (st : SyncState)
    (h1 : c.is_deleted = 1) (h2 : jsTruthy c.remote_id = true) :
    (pushOnePure c st).todos = st.todos.filter (fun t => t.id != c.id) ∧
    (pushOnePure c st).remote = st.remote.filter (fun r => r.id != c.remote_id.getD 0) ∧
    (pushOnePure c st).nextRemoteId = st.nextRemoteId := by
  simp [pushOnePure, eraseLocal, h1, h2]

theorem pushOnePure_del_fal (c : Todo) (st : SyncState)
    (h1 : c.is_deleted = 1) (h2 : jsTruthy c.remote_id = false) :
    (pushOnePure c st).todos = st.todos.filter (fun t => t.id != c.id) ∧
    (pushOnePure c st).remote = st.remote ∧
    (pushOnePure c st).nextRemoteId = st.nextRemoteId := by
  simp [pushOnePure, eraseLocal, h1, h2]

theorem pushOnePure_ins (c : Todo) (st : SyncState)
    (h1 : c.is_deleted ≠ 1) (h2 : jsTruthy c.remote_id = false) :
    (pushOnePure c st).todos = st.todos.map (fun t =>
      if t.id == c.id then { t with remote_id := some st.nextRemoteId, dirty := 0 } else t) ∧
    (pushOnePure c st).remote = st.remote ++
      [{ id := st.nextRemoteId, text := c.text, completed := c.completed }] ∧
    (pushOnePure c st).nextRemoteId = st.nextRemoteId + 1 := by
  simp [pushOnePure, applyRemoteAssignment, h1, h2]

theorem pushOnePure_upd (c : Todo) (st : SyncState)
    (h1 : c.is_deleted ≠ 1) (h2 : jsTruthy c.remote_id = true) :
    (pushOnePure c st).todos = st.todos.map (fun t =>
      if t.id == c.id then { t with dirty := 0 } else t) ∧
    (pushOnePure c st).remote = st.remote.map (fun r =>
      if r.id == c.remote_id.getD 0 then { r with text := c.text, completed := c.completed }
      else r) ∧
    (pushOnePure c st).nextRemoteId = st.nextRemoteId := by
  simp [pushOnePure, clearDirty, h1, h2]

/-! ### Invariants established by a fully successful push phase -/

theorem pushAllPure_inv (cs : List Todo) :
    ∀ st : SyncState,
    (st.todos.map (fun t => t.id)).Nodup →
    (st.remote.map (fun r => r.id)).Nodup →
    (∀ r ∈ st.remote, r.id < st.nextRemoteId) →
    (∀ c ∈ cs, c ∈ st.todos) →
    (cs.map (fun t => t.id)).Nodup →
    (∀ t ∈ st.todos, (t.remote_id ≠ none ∧ t.dirty ≠ 1) ∨ t ∈ cs) →
    ((pushAllPure cs st).todos.map (fun t => t.id)).Nodup ∧
    ((pushAllPure cs st).remote.map (fun r => r.id)).Nodup ∧
    (∀ r ∈ (pushAllPure cs st).remote, r.id < (pushAllPure cs st).nextRemoteId) ∧
    (∀ t ∈ (pushAllPure cs st).todos, t.remote_id ≠ none ∧ t.dirty ≠ 1) := by
  induction cs with
  | nil =>
    intro st hloc hrem hbound hsub hcnd hphi
    refine ⟨hloc, hrem, hbound, ?_⟩
    intro t ht
    rcases hphi t ht with h | h
    · exact h
    · exact absurd h (List.not_mem_nil t)
  | cons c rest ih =>
    intro st hloc hrem hbound hsub hcnd hphi
    rw [List.map_cons, List.nodup_cons] at hcnd
    obtain ⟨hcid_notin, hcnd_rest⟩ := hcnd
    have hrsub : ∀ x ∈ rest, x ∈ st.todos := fun x hx => hsub x (List.mem_cons_of_mem c hx)
    have hrne : ∀ x ∈ rest, x.id ≠ c.id := by
      intro x hx he
      exact hcid_notin (he ▸ List.mem_map_of_mem (fun t => t.id) hx)
    have hstep : pushAllPure (c :: rest) st = pushAllPure rest (pushOnePure c st) := rfl
    rw [hstep]
    -- obligations for the new state, established per branch of the push step
    by_cases hdel : c.is_deleted = 1
    · -- tombstone branch: the local row is erased
      have htodos : (pushOnePure c st).todos = st.todos.filter (fun t => t.id != c.id) := by
        by_cases htru : jsTruthy c.remote_id = true
        · exact (pushOnePure_del_tru c st hdel htru).1
        · exact (pushOnePure_del_fal c st hdel (by simpa using htru)).1
      have hrem' : ((pushOnePure c st).remote.map (fun r => r.id)).Nodup := by
        by_cases htru : jsTruthy c.remote_id = true
        · rw [(pushOnePure_del_tru c st hdel htru).2.1]; exact nodup_map_filter hrem
        · rw [(pushOnePure_del_fal c st hdel (by simpa using htru)).2.1]; exact hrem
      have hbound' : ∀ r ∈ (pushOnePure c st).remote, r.id < (pushOnePure c st).nextRemoteId := by
        by_cases htru : jsTruthy c.remote_id = true
        · rw [(pushOnePure_del_tru c st hdel htru).2.1, (pushOnePure_del_tru c st hdel htru).2.2]
          intro r hr
          exact hbound r (List.mem_filter.mp hr).1
        · rw [(pushOnePure_del_fal c st hdel (by simpa using htru)).2.1,
              (pushOnePure_del_fal c st hdel (by simpa using htru)).2.2]
          exact hbound
      refine ih (pushOnePure c st) ?_ hrem' hbound' ?_ hcnd_rest ?_
      · rw [htodos]; exact nodup_map_filter hloc
      · intro x hx
        rw [htodos]
        exact List.mem_filter.mpr ⟨hrsub x hx, by simp [hrne x hx]⟩
      · intro t ht
        rw [htodos] at ht
        obtain ⟨htm, htb⟩ := List.mem_filter.mp ht
        have htne : t.id ≠ c.id := by simpa using htb
        rcases hphi t htm with hΦ | hin
        · exact Or.inl hΦ
        · rcases List.mem_cons.mp hin with heq | hr
          · exact absurd (congrArg (fun x => Todo.id x) heq) htne
          · exact Or.inr hr
    · by_cases htru : jsTruthy c.remote_id = true
      · -- update branch: dirty cleared on the matching row
        obtain ⟨htodos, hremeq, hnexteq⟩ := pushOnePure_upd c st hdel htru
        have hid : ∀ t : Todo,
            ((if t.id == c.id then { t with dirty := 0 } else t) : Todo).id = t.id := by
          intro t
          by_cases h : (t.id == c.id) = true <;> simp [h]
        have hremid : ∀ r : RemoteTodo,
            ((if r.id == c.remote_id.getD 0 then
               { r with text := c.text, completed := c.completed } else r) : RemoteTodo).id
              = r.id := by
          intro r
          by_cases h : (r.id == c.remote_id.getD 0) = true <;> simp [h]
        refine ih (pushOnePure c st) ?_ ?_ ?_ ?_ hcnd_rest ?_
        · rw [htodos]; exact nodup_map_map hid hloc
        · rw [hremeq]; exact nodup_map_map hremid hrem
        · rw [hremeq, hnexteq]
          intro r hr
          obtain ⟨r0, hr0, hr0e⟩ := List.mem_map.mp hr
          rw [← hr0e, hremid r0]
          exact hbound r0 hr0
        · intro x hx
          rw [htodos]
          have : (if x.id == c.id then ({ x with dirty := 0 } : Todo) else x) = x := by
            simp [hrne x hx]
          exact this ▸ List.mem_map_of_mem _ (hrsub x hx)
        · intro t ht
          rw [htodos] at ht
          obtain ⟨t0, ht0, ht0e⟩ := List.mem_map.mp ht
          by_cases hmatch : (t0.id == c.id) = true
          · rw [hmatch] at ht0e
            simp only [if_true] at ht0e
            have hrid : t.remote_id = t0.remote_id := by rw [← ht0e]
            have hdirty : t.dirty = 0 := by rw [← ht0e]
            refine Or.inl ⟨?_, by rw [hdirty]; decide⟩
            rw [hrid]
            rcases hphi t0 ht0 with hΦ | hin
            · exact hΦ.1
            · rcases List.mem_cons.mp hin with heq | hr
              · rw [heq]; exact jsTruthy_ne_none htru
              · exact absurd (beq_iff_eq.mp hmatch) (hrne t0 hr)
          · rw [if_neg hmatch] at ht0e
            rcases hphi t0 ht0 with hΦ | hin
            · exact Or.inl (ht0e ▸ hΦ)
            · rcases List.mem_cons.mp hin with heq | hr
              · exact absurd (congrArg (fun x => Todo.id x) heq)
                  (fun he => hmatch (beq_iff_eq.mpr he))
              · exact Or.inr (ht0e ▸ hr)
      · -- insert branch: remote id assigned, dirty cleared
        obtain ⟨htodos, hremeq, hnexteq⟩ :=
          pushOnePure_ins c st hdel (by simpa using htru)
        have hid : ∀ t : Todo,
            ((if t.id == c.id then
               { t with remote_id := some st.nextRemoteId, dirty := 0 } else t) : Todo).id
              = t.id := by
          intro t
          by_cases h : (t.id == c.id) = true <;> simp [h]
        refine ih (pushOnePure c st) ?_ ?_ ?_ ?_ hcnd_rest ?_
        · rw [htodos]; exact nodup_map_map hid hloc
        · rw [hremeq, List.map_append, List.map_singleton]
          rw [List.nodup_append]
          refine ⟨hrem, List.nodup_singleton _, ?_⟩
          intro a ha hb
          have hae : a = st.nextRemoteId := by simpa using hb
          obtain ⟨r0, hr0, hr0e⟩ := List.mem_map.mp ha
          have := hbound r0 hr0
          omega
        · rw [hremeq, hnexteq]
          intro r hr
          rcases List.mem_append.mp hr with hl | hs
          · exact Nat.lt_succ_of_lt (hbound r hl)
          · have : r = { id := st.nextRemoteId, text := c.text, completed := c.completed } := by
              simpa using hs
            rw [this]
            exact Nat.lt_succ_self _
        · intro x hx
          rw [htodos]
          have : (if x.id == c.id then
              ({ x with remote_id := some st.nextRemoteId, dirty := 0 } : Todo) else x) = x := by
            simp [hrne x hx]
          exact this ▸ List.mem_map_of_mem _ (hrsub x hx)
        · intro t ht
          rw [htodos] at ht
          obtain ⟨t0, ht0, ht0e⟩ := List.mem_map.mp ht
          by_cases hmatch : (t0.id == c.id) = true
          · rw [hmatch] at ht0e
            simp only [if_true] at ht0e
            refine Or.inl ⟨?_, ?_⟩
            · rw [← ht0e]; simp
            · rw [← ht0e]; simp
          · rw [if_neg hmatch] at ht0e
            rcases hphi t0 ht0 with hΦ | hin
            · exact Or.inl (ht0e ▸ hΦ)
            · rcases List.mem_cons.mp hin with heq | hr
              · exact absurd (congrArg (fun x => Todo.id x) heq)
                  (fun he => hmatch (beq_iff_eq.mpr he))
              · exact Or.inr (ht0e ▸ hr)

/-! ### Facts about the merge step and the pull-phase delete -/

theorem mergeRemote_frame (r : RemoteTodo) (t : Todo) :
    (mergeRemote r t).id = t.id ∧ (mergeRemote r t).remote_id = t.remote_id ∧
    (mergeRemote r t).dirty = t.dirty ∧ (mergeRemote r t).is_deleted = t.is_deleted ∧
    (mergeRemote r t).created_at = t.created_at := by
  unfold mergeRemote
  split <;> exact ⟨rfl, rfl, rfl, rfl, rfl⟩

theorem mergeRemote_of_ne {r : RemoteTodo} {t : Todo} (h : t.remote_id ≠ some r.id) :
    mergeRemote r t = t := by
  unfold mergeRemote
  rw [if_neg (by simpa using h)]

theorem mergeRemote_dirty_ne {r : RemoteTodo} {t : Todo} (h : t.dirty ≠ 0) :
    mergeRemote r t = t := by
  unfold mergeRemote
  split
  · rw [if_neg (by simpa using h), if_neg (by simpa using h)]
  · rfl

theorem mergeRemote_clean {r : RemoteTodo} {t : Todo}
    (hm : t.remote_id = some r.id) (h : t.dirty = 0) :
    mergeRemote r t = { t with text := r.text, completed := r.completed } := by
  unfold mergeRemote
  rw [if_pos (by simpa using hm), if_pos (by simpa using h), if_pos (by simpa using h)]

theorem pullDelete_sub (ids : List Nat) (st : SyncState) :
    ∀ t ∈ (pullDelete ids st).todos, t ∈ st.todos := by
  unfold pullDelete
  split <;> exact fun t ht => (List.mem_filter.mp ht).1

theorem pullDelete_clean_mem (ids : List Nat) (st : SyncState) :
    ∀ t ∈ (pullDelete ids st).todos, t.remote_id ≠ none → t.dirty = 0 →
      t.remote_id.getD 0 ∈ ids := by
  unfold pullDelete
  split
  · intro t ht hrn hd
    obtain ⟨htm, htb⟩ := List.mem_filter.mp ht
    have hsome : t.remote_id.isSome = true := Option.isSome_iff_ne_none.mpr hrn
    simp [hsome, hd] at htb
    exact htb
  · intro t ht hrn hd
    obtain ⟨htm, htb⟩ := List.mem_filter.mp ht
    have hsome : t.remote_id.isSome = true := Option.isSome_iff_ne_none.mpr hrn
    simp [hsome, hd] at htb

theorem pullDelete_keep_all (ids : List Nat) (st : SyncState)
    (h : ∀ t ∈ st.todos, t.dirty ≠ 0 ∨ (t.remote_id ≠ none ∧ t.remote_id.getD 0 ∈ ids)) :
    pullDelete ids st = st := by
  unfold pullDelete
  split
  · rw [List.filter_eq_self.mpr ?_]
    · intro t ht
      rcases h t ht with hd | ⟨hrn, hin⟩
      · simp [hd]
      · simp [hin]
  · have hids : ids = [] := by
      rename_i hlen
      simpa using List.length_eq_zero.mp (Nat.le_zero.mp (Nat.not_lt.mp hlen))
    rw [List.filter_eq_self.mpr ?_]
    · intro t ht
      rcases h t ht with hd | ⟨hrn, hin⟩
      · simp [hd]
      · rw [hids] at hin
        exact absurd hin (List.not_mem_nil _)

/-! ### Invariants established by the pull-phase upsert fold -/

theorem pullUpserts_inv (R : List RemoteTodo) (hR : (R.map (fun r => r.id)).Nodup)
    (rs : List RemoteTodo) :
    ∀ s : SyncState,
    (∀ r ∈ rs, r ∈ R) →
    (∀ t ∈ s.todos, t.remote_id ≠ none ∧ t.dirty ≠ 1) →
    (∀ t ∈ s.todos, t.dirty = 0 → ∃ r ∈ R, t.remote_id = some r.id ∧
        (r ∉ rs → t.text = r.text ∧ t.completed = r.completed)) →
    (∀ r ∈ R, r ∉ rs → ∃ t ∈ s.todos, t.remote_id = some r.id) →
    (∀ t ∈ (pullUpserts rs s).todos, t.remote_id ≠ none ∧ t.dirty ≠ 1) ∧
    (∀ t ∈ (pullUpserts rs s).todos, t.dirty = 0 → ∃ r ∈ R, t.remote_id = some r.id ∧
        t.text = r.text ∧ t.completed = r.completed) ∧
    (∀ r ∈ R, ∃ t ∈ (pullUpserts rs s).todos, t.remote_id = some r.id) := by
  induction rs with
  | nil =>
    intro s hsub hphi hmatch hcov
    refine ⟨hphi, ?_, ?_⟩
    · intro t ht hd
      obtain ⟨r, hrR, hrm, hrs⟩ := hmatch t ht hd
      exact ⟨r, hrR, hrm, (hrs (List.not_mem_nil r)).1, (hrs (List.not_mem_nil r)).2⟩
    · intro r hr
      exact hcov r hr (List.not_mem_nil r)
  | cons r0 rs ih =>
    intro s hsub hphi hmatch hcov
    have hr0R : r0 ∈ R := hsub r0 (List.mem_cons_self r0 rs)
    have hstep : pullUpserts (r0 :: rs) s = pullUpserts rs (upsertFromRemote r0 s) := rfl
    rw [hstep]
    have hsub' : ∀ r ∈ rs, r ∈ R := fun r hr => hsub r (List.mem_cons_of_mem r0 hr)
    by_cases hany : (s.todos.any (fun t => t.remote_id == some r0.id)) = true
    · -- conflict arm: merge mapped over every local row
      have hups : (upsertFromRemote r0 s).todos = s.todos.map (mergeRemote r0) := by
        unfold upsertFromRemote
        rw [if_pos hany]
      apply ih (upsertFromRemote r0 s) hsub'
      · intro t ht
        rw [hups] at ht
        obtain ⟨t0, ht0, ht0e⟩ := List.mem_map.mp ht
        have hf := mergeRemote_frame r0 t0
        exact ⟨by rw [← ht0e, hf.2.1]; exact (hphi t0 ht0).1,
               by rw [← ht0e, hf.2.2.1]; exact (hphi t0 ht0).2⟩
      · intro t ht hd
        rw [hups] at ht
        obtain ⟨t0, ht0, ht0e⟩ := List.mem_map.mp ht
        have hf := mergeRemote_frame r0 t0
        have hd0 : t0.dirty = 0 := by rw [← hf.2.2.1, ht0e]; exact hd
        by_cases hr0 : t0.remote_id = some r0.id
        · refine ⟨r0, hr0R, ?_, ?_⟩
          · rw [← ht0e, hf.2.1]; exact hr0
          · rw [← ht0e, mergeRemote_clean hr0 hd0]
            exact fun _ => ⟨rfl, rfl⟩
        · have hteq : t = t0 := by rw [← ht0e, mergeRemote_of_ne hr0]
          obtain ⟨r, hrR, hrm, hrs⟩ := hmatch t0 ht0 hd0
          refine ⟨r, hrR, hteq ▸ hrm, ?_⟩
          have hner0 : r ≠ r0 := by
            intro he
            exact hr0 (he ▸ hrm)
          intro hnrs
          exact hteq ▸ hrs (by simp [hner0, hnrs])
      · intro r hrR' hnrs
        by_cases hre : r = r0
        · subst hre
          obtain ⟨t0, ht0, ht0m⟩ := List.any_eq_true.mp hany
          refine ⟨mergeRemote r t0, ?_, ?_⟩
          · rw [hups]; exact List.mem_map_of_mem _ ht0
          · rw [(mergeRemote_frame r t0).2.1]
            exact beq_iff_eq.mp ht0m
        · obtain ⟨t0, ht0, ht0m⟩ := hcov r hrR' (by simp [hre, hnrs])
          refine ⟨mergeRemote r0 t0, ?_, ?_⟩
          · rw [hups]; exact List.mem_map_of_mem _ ht0
          · rw [(mergeRemote_frame r0 t0).2.1]; exact ht0m
    · -- insert arm: a fresh local row is appended
      have hups : (upsertFromRemote r0 s).todos = s.todos ++ [freshFromRemote r0 s] := by
        unfold upsertFromRemote
        rw [if_neg hany]
      apply ih (upsertFromRemote r0 s) hsub'
      · intro t ht
        rw [hups] at ht
        rcases List.mem_append.mp ht with hl | hnew
        · exact hphi t hl
        · have ht' : t = freshFromRemote r0 s := by simpa using hnew
          rw [ht']
          exact ⟨by simp [freshFromRemote], by simp [freshFromRemote]⟩
      · intro t ht hd
        rw [hups] at ht
        rcases List.mem_append.mp ht with hl | hnew
        · obtain ⟨r, hrR, hrm, hrs⟩ := hmatch t hl hd
          refine ⟨r, hrR, hrm, ?_⟩
          have hner0 : r ≠ r0 := by
            intro he
            subst he
            exact hany (List.any_eq_true.mpr ⟨t, hl, beq_iff_eq.mpr hrm⟩)
          intro hnrs
          exact hrs (by simp [hner0, hnrs])
        · have ht' : t = freshFromRemote r0 s := by simpa using hnew
          exact ⟨r0, hr0R, by rw [ht']; rfl, fun _ => ⟨by rw [ht']; rfl, by rw [ht']; rfl⟩⟩
      · intro r hrR' hnrs
        by_cases hre : r = r0
        · subst hre
          refine ⟨freshFromRemote r s, ?_, rfl⟩
          rw [hups]
          exact List.mem_append_right _ (List.mem_singleton_self _)
        · obtain ⟨t0, ht0, ht0m⟩ := hcov r hrR' (by simp [hre, hnrs])
          exact ⟨t0, by rw [hups]; exact List.mem_append_left _ ht0, ht0m⟩

/-! ### A successful round establishes the synced invariant -/

theorem pull_establishes_synced (sp1 : SyncState)
    (hphi : ∀ t ∈ sp1.todos, t.remote_id ≠ none ∧ t.dirty ≠ 1)
    (hrem : (sp1.remote.map (fun r => r.id)).Nodup) :
    Synced (pullUpserts sp1.remote (pullDelete (sp1.remote.map (fun r => r.id)) sp1)) := by
  have hsd_sub : ∀ t ∈ (pullDelete (sp1.remote.map (fun r => r.id)) sp1).todos, t ∈ sp1.todos :=
    pullDelete_sub _ sp1
  have hsd_phi : ∀ t ∈ (pullDelete (sp1.remote.map (fun r => r.id)) sp1).todos,
      t.remote_id ≠ none ∧ t.dirty ≠ 1 :=
    fun t ht => hphi t (hsd_sub t ht)
  have hsd_match : ∀ t ∈ (pullDelete (sp1.remote.map (fun r => r.id)) sp1).todos,
      t.dirty = 0 → ∃ r ∈ sp1.remote, t.remote_id = some r.id := by
    intro t ht hd
    have hin := pullDelete_clean_mem _ sp1 t ht (hsd_phi t ht).1 hd
    obtain ⟨r, hr, hre⟩ := List.mem_map.mp hin
    refine ⟨r, hr, ?_⟩
    cases hv : t.remote_id with
    | none => exact absurd hv (hsd_phi t ht).1
    | some v =>
      have hv' : v = r.id := by
        rw [hv] at hre
        simpa using hre.symm
      rw [hv']
  have hinv := pullUpserts_inv sp1.remote hrem sp1.remote
    (pullDelete (sp1.remote.map (fun r => r.id)) sp1)
    (fun r hr => hr)
    hsd_phi
    (fun t ht hd => by
      obtain ⟨r, hr, hm⟩ := hsd_match t ht hd
      exact ⟨r, hr, hm, fun hn => absurd hr hn⟩)
    (fun r hr hn => absurd hr hn)
  obtain ⟨hu1, hu2, hu3⟩ := hinv
  have hfrem : (pullUpserts sp1.remote (pullDelete (sp1.remote.map (fun r => r.id)) sp1)).remote
      = sp1.remote := by
    rw [(pullUpserts_fields _ _).1]
    exact (pullDelete_fields _ _).1
  refine ⟨hu1, ?_, ?_, ?_⟩
  · rw [hfrem]; exact hu2
  · rw [hfrem]; exact hu3
  · rw [hfrem]; exact hrem

theorem syncPure_synced (st : SyncState) (hwf : WFSt st) : Synced (syncPure st) := by
  obtain ⟨hloc, hrem, hbound⟩ := hwf
  have hps := pushAllPure_inv (listSyncCandidates st) st hloc hrem hbound
    (fun c hc => (List.mem_filter.mp hc).1)
    (nodup_map_filter hloc)
    (by
      intro t ht
      by_cases hc : isSyncCandidate t = true
      · exact Or.inr (List.mem_filter.mpr ⟨ht, hc⟩)
      · refine Or.inl ?_
        unfold isSyncCandidate at hc
        simp only [Bool.or_eq_true, beq_iff_eq, not_or] at hc
        exact ⟨hc.1, hc.2⟩)
  obtain ⟨_, hprem, _, hpphi⟩ := hps
  exact pull_establishes_synced
    { pushAllPure (listSyncCandidates st) st with
      trace := (pushAllPure (listSyncCandidates st) st).trace ++ [RemoteCall.listAll] }
    hpphi hprem

theorem syncPure_schedule (st : SyncState) : (syncPure st).schedule = st.schedule := by
  unfold syncPure
  rw [(pullUpserts_fields _ _).2, (pullDelete_fields _ _).2.1]
  exact (pushAllPure_fields (listSyncCandidates st) st).1

/-! ### A synced state is a fixed point of the round -/

theorem sync_synced_fixed (s : SyncState) (hS : Synced s) (hsch : s.schedule = []) :
    syncWithRemote s = Res.ok () { s with trace := s.trace ++ [RemoteCall.listAll] } := by
  obtain ⟨hphi, hmatch, hcov, hnodup⟩ := hS
  have hc : listSyncCandidates s = [] := by
    unfold listSyncCandidates
    rw [List.filter_eq_nil_iff]
    intro t ht
    unfold isSyncCandidate
    simp only [Bool.or_eq_true, beq_iff_eq, not_or]
    exact ⟨(hphi t ht).1, (hphi t ht).2⟩
  rw [sync_nil s hsch]
  suffices h : syncPure s = { s with trace := s.trace ++ [RemoteCall.listAll] } by rw [h]
  have he : pushAllPure (listSyncCandidates s) s = s := by rw [hc]; rfl
  unfold syncPure
  rw [he]
  show pullUpserts s.remote
      (pullDelete (List.map (fun r => r.id) s.remote)
        { s with trace := s.trace ++ [RemoteCall.listAll] }) =
    { s with trace := s.trace ++ [RemoteCall.listAll] }
  have hkeep : pullDelete (s.remote.map (fun r => r.id))
      { s with trace := s.trace ++ [RemoteCall.listAll] }
      = { s with trace := s.trace ++ [RemoteCall.listAll] } := by
    apply pullDelete_keep_all
    intro t ht
    by_cases hd : t.dirty = 0
    · refine Or.inr ⟨(hphi t ht).1, ?_⟩
      obtain ⟨r, hrR, hrm, _, _⟩ := hmatch t ht hd
      rw [hrm]
      simpa using List.mem_map_of_mem (fun r => r.id) hrR
    · exact Or.inl hd
  rw [hkeep]
  unfold pullUpserts
  apply list_foldl_fixed
  intro r hr
  have hany : (({ s with trace := s.trace ++ [RemoteCall.listAll] } : SyncState).todos.any
      (fun t => t.remote_id == some r.id)) = true := by
    obtain ⟨t, ht, hm⟩ := hcov r hr
    exact List.any_eq_true.mpr ⟨t, ht, beq_iff_eq.mpr hm⟩
  unfold upsertFromRemote
  rw [if_pos hany]
  have hm : (({ s with trace := s.trace ++ [RemoteCall.listAll] } : SyncState).todos.map
      (mergeRemote r)) = s.todos := by
    apply list_map_eq_self
    intro t ht
    by_cases hd : t.dirty = 0
    · by_cases hmm : t.remote_id = some r.id
      · rw [mergeRemote_clean hmm hd]
        obtain ⟨r', hr'R, hrm', ht1, ht2⟩ := hmatch t ht hd
        have hre : r' = r := by
          apply List.inj_on_of_nodup_map hnodup hr'R hr
          have : some r'.id = some r.id := by rw [← hrm', hmm]
          simpa using this
        rw [hre] at ht1 ht2
        rw [← ht1, ← ht2]
      · rw [mergeRemote_of_ne hmm]
    · rw [mergeRemote_dirty_ne hd]
  rw [hm]

/-! ### The display sort: permutation, sortedness, stability -/

theorem insertDesc_perm (t : Todo) (l : List Todo) : List.Perm (insertDesc t l) (t :: l) := by
  induction l with
  | nil => exact List.Perm.refl _
  | cons u us ih =>
    unfold insertDesc
    split
    · exact List.Perm.refl _
    · exact List.Perm.trans (List.Perm.cons u ih) (List.Perm.swap t u us)

theorem sortByCreatedDesc_perm (l : List Todo) : List.Perm (sortByCreatedDesc l) l := by
  induction l with
  | nil => exact List.Perm.refl _
  | cons t ts ih =>
    exact List.Perm.trans (insertDesc_perm t (sortByCreatedDesc ts)) (List.Perm.cons t ih)

theorem mem_insertDesc {x t : Todo} {l : List Todo} (h : x ∈ insertDesc t l) :
    x = t ∨ x ∈ l := by
  have := (insertDesc_perm t l).mem_iff.mp h
  simpa using this

theorem insertDesc_sorted (t : Todo) (l : List Todo)
    (h : List.Pairwise (fun a b => b.created_at ≤ a.created_at) l) :
    List.Pairwise (fun a b => b.created_at ≤ a.created_at) (insertDesc t l) := by
  induction l with
  | nil => simp [insertDesc]
  | cons u us ih =>
    rw [List.pairwise_cons] at h
    unfold insertDesc
    split
    · rename_i hle
      rw [List.pairwise_cons]
      refine ⟨?_, List.pairwise_cons.mpr h⟩
      intro b hb
      rcases List.mem_cons.mp hb with heq | hbus
      · rw [heq]; exact hle
      · exact le_trans (h.1 b hbus) hle
    · rename_i hgt
      rw [List.pairwise_cons]
      refine ⟨?_, ih h.2⟩
      intro b hb
      rcases mem_insertDesc hb with heq | hbus
      · rw [heq]; exact Nat.le_of_lt (Nat.lt_of_not_le hgt)
      · exact h.1 b hbus

theorem sortByCreatedDesc_sorted (l : List Todo) :
    List.Pairwise (fun a b => b.created_at ≤ a.created_at) (sortByCreatedDesc l) := by
  induction l with
  | nil => exact List.Pairwise.nil
  | cons t ts ih => exact insertDesc_sorted t _ ih

theorem insertDesc_filter_created (c : Nat) (t : Todo) (l : List Todo) :
    (insertDesc t l).filter (fun x => x.created_at == c) =
      (if t.created_at == c then t :: l.filter (fun x => x.created_at == c)
       else l.filter (fun x => x.created_at == c)) := by
  induction l with
  | nil =>
    unfold insertDesc
    by_cases h : (t.created_at == c) = true <;> simp [h]
  | cons u us ih =>
    unfold insertDesc
    split
    · rename_i hle
      rw [List.filter_cons]
    · rename_i hgt
      rw [List.filter_cons]
      by_cases hu : (u.created_at == c) = true
      · have hne : (t.created_at == c) = false := by
          have hlt : t.created_at < u.created_at := Nat.lt_of_not_le hgt
          have huc : u.created_at = c := beq_iff_eq.mp hu
          have : t.created_at ≠ c := by omega
          simpa using this
        rw [if_pos hu, ih, hne]
        simp [List.filter_cons, hu]
      · rw [if_neg hu, ih, List.filter_cons, if_neg hu]

theorem sortByCreatedDesc_filter (c : Nat) (l : List Todo) :
    (sortByCreatedDesc l).filter (fun x => x.created_at == c) =
      l.filter (fun x => x.created_at == c) := by
  induction l with
  | nil => rfl
  | cons t ts ih =>
    show (insertDesc t (sortByCreatedDesc ts)).filter (fun x => x.created_at == c) = _
    rw [insertDesc_filter_created, List.filter_cons]
    by_cases h : (t.created_at == c) = true
    · rw [if_pos h, if_pos h, ih]
    · rw [if_neg h, if_neg h, ih]

/-! ### Push-phase erasure of tombstones -/

theorem pushOnePure_ids_sub (c : Todo) (st : SyncState) :
    ∀ u ∈ (pushOnePure c st).todos, ∃ v ∈ st.todos, v.id = u.id := by
  by_cases hdel : c.is_deleted = 1
  · have htd : (pushOnePure c st).todos = st.todos.filter (fun x => x.id != c.id) := by
      by_cases htru : jsTruthy c.remote_id = true
      · exact (pushOnePure_del_tru c st hdel htru).1
      · exact (pushOnePure_del_fal c st hdel (by simpa using htru)).1
    rw [htd]
    exact fun u hu => ⟨u, (List.mem_filter.mp hu).1, rfl⟩
  · by_cases htru : jsTruthy c.remote_id = true
    · rw [(pushOnePure_upd c st hdel htru).1]
      intro u hu
      obtain ⟨v, hv, hve⟩ := List.mem_map.mp hu
      refine ⟨v, hv, ?_⟩
      rw [← hve]
      by_cases hm : (v.id == c.id) = true <;> simp [hm]
    · rw [(pushOnePure_ins c st hdel (by simpa using htru)).1]
      intro u hu
      obtain ⟨v, hv, hve⟩ := List.mem_map.mp hu
      refine ⟨v, hv, ?_⟩
      rw [← hve]
      by_cases hm : (v.id == c.id) = true <;> simp [hm]

theorem pushAllPure_no_id (cs : List Todo) :
    ∀ (st : SyncState) (i : Nat), (∀ u ∈ st.todos, u.id ≠ i) →
      ∀ u ∈ (pushAllPure cs st).todos, u.id ≠ i := by
  induction cs with
  | nil => exact fun st i h => h
  | cons c rest ih =>
    intro st i h
    show ∀ u ∈ (pushAllPure rest (pushOnePure c st)).todos, u.id ≠ i
    apply ih (pushOnePure c st) i
    intro u hu
    obtain ⟨v, hv, hve⟩ := pushOnePure_ids_sub c st u hu
    exact hve ▸ h v hv

theorem pushAllPure_erases_tombstone (cs : List Todo) :
    ∀ (st : SyncState) (t : Todo), t ∈ cs → t.is_deleted = 1 →
      ∀ u ∈ (pushAllPure cs st).todos, u.id ≠ t.id := by
  induction cs with
  | nil =>
    intro st t ht
    exact absurd ht (List.not_mem_nil t)
  | cons c rest ih =>
    intro st t ht hdel
    show ∀ u ∈ (pushAllPure rest (pushOnePure c st)).todos, u.id ≠ t.id
    rcases List.mem_cons.mp ht with heq | hrest
    · subst heq
      have h0 : ∀ u ∈ (pushOnePure t st).todos, u.id ≠ t.id := by
        have htd : (pushOnePure t st).todos = st.todos.filter (fun x => x.id != t.id) := by
          by_cases htru : jsTruthy t.remote_id = true
          · exact (pushOnePure_del_tru t st hdel htru).1
          · exact (pushOnePure_del_fal t st hdel (by simpa using htru)).1
        rw [htd]
        intro u hu
        simpa using (List.mem_filter.mp hu).2
      exact pushAllPure_no_id rest (pushOnePure t st) t.id h0
    · exact ih (pushOnePure c st) t hrest hdel

/-! ### Claim theorems -/

/-- C1: running one sync round twice in a row with no local or remote
mutation in between (and with every remote call succeeding, which is the
only way the first round returns at all) leaves both the local and the
remote store in the same observable state after the second run as after the
first: the second round succeeds and changes neither `todos` nor `remote`
(no duplicate inserts, no extra deletes, no dirty flags newly set).  The
store invariants `WFSt` are those the SQLite schema enforces (unique
primary keys, fresh AUTOINCREMENT ids). -/
theorem sync_round_idempotent (st s1 : SyncState) (hwf : WFSt st)
    (hsch : st.schedule = []) (h1 : syncWithRemote st = Res.ok () s1) :
    (syncWithRemote s1).isOk = true ∧
    (syncWithRemote s1).stateOf.todos = s1.todos ∧
    (syncWithRemote s1).stateOf.remote = s1.remote := by
  have hs := sync_nil st hsch
  rw [h1] at hs
  have hseq : s1 = syncPure st := by
    injection hs
  subst hseq
  have hS := syncPure_synced st hwf
  have hsch1 : (syncPure st).schedule = [] := (syncPure_schedule st).trans hsch
  rw [sync_synced_fixed (syncPure st) hS hsch1]
  exact ⟨rfl, rfl, rfl⟩

/-- Witness for C1: a concrete store with one never-pushed todo; the round
evaluates concretely and the theorem applies to it. -/
theorem sync_round_idempotent_witness :
    WFSt stOne ∧ stOne.schedule = [] ∧
    syncWithRemote stOne = Res.ok () (syncPure stOne) ∧
    ((syncWithRemote (syncPure stOne)).isOk = true ∧
     (syncWithRemote (syncPure stOne)).stateOf.todos = (syncPure stOne).todos ∧
     (syncWithRemote (syncPure stOne)).stateOf.remote = (syncPure stOne).remote) :=
  ⟨by unfold WFSt; decide, rfl, by decide,
    sync_round_idempotent stOne (syncPure stOne) (by unfold WFSt; decide) rfl (by decide)⟩

/-- C2: the pull upsert maps every local row through `mergeRemote`; a row
matching the snapshot row that is dirty (`dirty ≠ 0`) is left entirely
unchanged, and only a clean row (`dirty = 0`) has its `text` and
`completed` overwritten by the snapshot's values. -/
theorem upsert_dirty_wins (st : SyncState) (r : RemoteTodo) (t : Todo)
    (hmem : t ∈ st.todos) (hrid : t.remote_id = some r.id) :
    (upsertFromRemote r st).todos = st.todos.map (mergeRemote r) ∧
    (t.dirty ≠ 0 → mergeRemote r t = t) ∧
    (t.dirty = 0 → (mergeRemote r t).text = r.text ∧
      (mergeRemote r t).completed = r.completed) := by
  refine ⟨?_, fun hd => mergeRemote_dirty_ne hd, ?_⟩
  · have hany : (st.todos.any (fun x => x.remote_id == some r.id)) = true :=
      List.any_eq_true.mpr ⟨t, hmem, beq_iff_eq.mpr hrid⟩
    unfold upsertFromRemote
    rw [if_pos hany]
  · intro hd
    rw [mergeRemote_clean hrid hd]
    exact ⟨rfl, rfl⟩

/-- Witness for C2: a dirty local row whose remote counterpart changed text
concurrently; the upsert leaves the local row untouched. -/
theorem upsert_dirty_wins_witness :
    dirtyRow7 ∈ stDirty7.todos ∧ dirtyRow7.remote_id = some remoteRow7.id ∧
    dirtyRow7.dirty ≠ 0 ∧
    (upsertFromRemote remoteRow7 stDirty7).todos
      = stDirty7.todos.map (mergeRemote remoteRow7) ∧
    mergeRemote remoteRow7 dirtyRow7 = dirtyRow7 :=
  ⟨by decide, by decide, by decide,
    (upsert_dirty_wins stDirty7 remoteRow7 dirtyRow7 (by decide) (by decide)).1,
    (upsert_dirty_wins stDirty7 remoteRow7 dirtyRow7 (by decide) (by decide)).2.1 (by decide)⟩

/-- C3: in the pull-phase delete, a local row whose non-null `remote_id` is
absent from the snapshot ids is erased when clean (`dirty = 0`) and kept
when dirty (`dirty = 1`); the statement quantifies over every id list,
including the empty snapshot. -/
theorem pullDelete_clean_erased_dirty_kept (ids : List Nat) (st : SyncState)
    (t : Todo) (v : Nat) (hmem : t ∈ st.todos) (hrid : t.remote_id = some v)
    (habs : v ∉ ids) :
    (t.dirty = 0 → t ∉ (pullDelete ids st).todos) ∧
    (t.dirty = 1 → t ∈ (pullDelete ids st).todos) := by
  unfold pullDelete
  split
  · constructor
    · intro hd hmem'
      have hb := (List.mem_filter.mp hmem').2
      simp [hrid, hd, habs] at hb
    · intro hd
      refine List.mem_filter.mpr ⟨hmem, ?_⟩
      simp [hrid, hd]
  · constructor
    · intro hd hmem'
      have hb := (List.mem_filter.mp hmem').2
      simp [hrid, hd] at hb
    · intro hd
      refine List.mem_filter.mpr ⟨hmem, ?_⟩
      simp [hrid, hd]

/-- Witness for C3: the clean pushed row `cleanRow3` disappears when the
snapshot is empty; the dirty case is the second conjunct of the applied
theorem. -/
theorem pullDelete_clean_erased_dirty_kept_witness :
    cleanRow3 ∈ stClean3.todos ∧ cleanRow3.remote_id = some 3 ∧
    (3 : Nat) ∉ ([] : List Nat) ∧ cleanRow3.dirty = 0 ∧
    cleanRow3 ∉ (pullDelete [] stClean3).todos :=
  ⟨by decide, by decide, by decide, by decide,
    (pullDelete_clean_erased_dirty_kept [] stClean3 cleanRow3 3
      (by decide) (by decide) (by decide)).1 (by decide)⟩

/-- C4 counterexample: in `stTwoFail` there is no local-store error and only
the first remote call (the push insert of candidate 1) fails, yet the whole
round returns that error: the trace shows exactly one remote call, so the
second candidate was never attempted and the pull-phase snapshot fetch never
ran — contradicting the claim that per-candidate failures are collected and
the round fails only on a local error or on the pull fetch. -/
theorem sync_push_failure_cex :
    syncWithRemote stTwoFail = Res.error SyncErr.remoteUnavailable
      { stTwoFail with trace := [RemoteCall.insert "a" 0], schedule := [] } ∧
    (syncWithRemote stTwoFail).stateOf.trace = [RemoteCall.insert "a" 0] ∧
    (syncWithRemote stTwoFail).isOk = false := by
  exact ⟨by decide, by decide, by decide⟩

/-- C4 amended: push candidates are processed sequentially inside one
try/catch and are not independent — the first error thrown while pushing a
candidate is the result of the whole round (the remaining candidates are not
attempted and the pull phase does not run), whatever the rest of the
candidate list is. -/
theorem push_failure_aborts_round :
    (∀ (st : SyncState) (e : SyncErr) (s' : SyncState),
      pushAll (listSyncCandidates st) st = Res.error e s' →
      syncWithRemote st = Res.error e s') ∧
    (∀ (c : Todo) (cs : List Todo) (st : SyncState) (e : SyncErr) (s' : SyncState),
      pushOne c st = Res.error e s' → pushAll (c :: cs) st = Res.error e s') := by
  constructor
  · intro st e s' h
    unfold syncWithRemote
    rw [h]
  · intro c cs st e s' h
    unfold pushAll
    rw [h]

/-- Witness for C4's amended statement at the concrete failing store. -/
theorem push_failure_aborts_round_witness :
    pushAll (listSyncCandidates stTwoFail) stTwoFail = Res.error SyncErr.remoteUnavailable
      { stTwoFail with trace := [RemoteCall.insert "a" 0], schedule := [] } ∧
    syncWithRemote stTwoFail = Res.error SyncErr.remoteUnavailable
      { stTwoFail with trace := [RemoteCall.insert "a" 0], schedule := [] } :=
  ⟨by decide,
    push_failure_aborts_round.1 stTwoFail SyncErr.remoteUnavailable
      { stTwoFail with trace := [RemoteCall.insert "a" 0], schedule := [] } (by decide)⟩

/-- C5: a tombstoned candidate that was never pushed (`remote_id` null) is
erased from the local store and the push step makes no remote call at all:
the result is exactly `eraseLocal`, which leaves the trace, the remote
table and the failure schedule untouched, and no row with the erased id
remains. -/
theorem tombstone_never_pushed_erased (st : SyncState) (t : Todo)
    (hdel : t.is_deleted = 1) (hrid : t.remote_id = none) :
    pushOne t st = Res.ok () (eraseLocal t.id st) ∧
    (eraseLocal t.id st).trace = st.trace ∧
    (eraseLocal t.id st).remote = st.remote ∧
    (eraseLocal t.id st).schedule = st.schedule ∧
    ∀ u ∈ (eraseLocal t.id st).todos, u.id ≠ t.id := by
  refine ⟨?_, rfl, rfl, rfl, ?_⟩
  · unfold pushOne
    rw [hrid]
    simp [hdel, jsTruthy]
  · intro u hu
    simpa using (List.mem_filter.mp hu).2

/-- Witness for C5 at the concrete never-pushed tombstone. -/
theorem tombstone_never_pushed_erased_witness :
    tombFresh.is_deleted = 1 ∧ tombFresh.remote_id = none ∧
    pushOne tombFresh stTombFresh = Res.ok () (eraseLocal tombFresh.id stTombFresh) ∧
    (eraseLocal tombFresh.id stTombFresh).trace = stTombFresh.trace ∧
    (eraseLocal tombFresh.id stTombFresh).todos = [] :=
  ⟨by decide, by decide,
    (tombstone_never_pushed_erased stTombFresh tombFresh (by decide) (by decide)).1,
    (tombstone_never_pushed_erased stTombFresh tombFresh (by decide) (by decide)).2.1,
    by decide⟩

/-- C6 counterexample: two divergences from the claim.  (a) For the
tombstone with `remote_id = 5` whose remote delete throws
`RemoteUnavailable`, the local erase is NOT performed — the row is still in
the local store and the step returns the error.  (b) For the tombstone with
the non-null `remote_id = 0` (JS-falsy), no remote call is made at all (the
trace stays empty), yet the row is erased locally. -/
theorem tombstone_delete_fail_cex :
    pushOne tombstone5 stDeleteFail = Res.error SyncErr.remoteUnavailable
      { stDeleteFail with trace := [RemoteCall.delete 5], schedule := [] } ∧
    tombstone5 ∈ (pushOne tombstone5 stDeleteFail).stateOf.todos ∧
    (pushOne tombstone0 stZeroId).stateOf.trace = [] ∧
    pushOne tombstone0 stZeroId = Res.ok () (eraseLocal 1 stZeroId) := by
  exact ⟨by decide, by decide, by decide, by decide⟩

/-- C6 amended: for a tombstoned candidate whose `remote_id` is non-null
and non-zero, the push step always attempts the remote delete (it is
recorded in the trace in every outcome); if the call succeeds — including
when the id is already absent remotely, since SQL DELETE of a missing row
succeeds — the record is erased locally, but if the call fails with
`RemoteUnavailable` the error propagates and the local erase is not
performed. -/
theorem tombstone_pushed_delete (st : SyncState) (t : Todo) (v : Nat)
    (hdel : t.is_deleted = 1) (hrid : t.remote_id = some v) (hv : v ≠ 0) :
    (∀ rest, st.schedule = true :: rest →
      pushOne t st = Res.error SyncErr.remoteUnavailable
        { st with schedule := rest, trace := st.trace ++ [RemoteCall.delete v] }) ∧
    (∀ rest, st.schedule = false :: rest →
      pushOne t st = Res.ok () (eraseLocal t.id
        { st with
          schedule := rest
          trace := st.trace ++ [RemoteCall.delete v]
          remote := st.remote.filter (fun r => r.id != v) })) ∧
    (st.schedule = [] →
      pushOne t st = Res.ok () (eraseLocal t.id
        { st with
          trace := st.trace ++ [RemoteCall.delete v]
          remote := st.remote.filter (fun r => r.id != v) })) := by
  have htru : jsTruthy t.remote_id = true := by
    rw [hrid]
    simpa [jsTruthy] using hv
  have hgd : t.remote_id.getD 0 = v := by rw [hrid]; rfl
  refine ⟨?_, ?_, ?_⟩
  · intro rest hsch
    unfold pushOne remoteDelete takeFail
    simp [hdel, htru, hgd, hsch]
  · intro rest hsch
    unfold pushOne remoteDelete takeFail
    simp [hdel, htru, hgd, hsch]
  · intro hsch
    unfold pushOne remoteDelete takeFail
    simp [hdel, htru, hgd, hsch]

/-- Witness for C6's amended statement: the failing schedule case at the
concrete tombstone with remote id 5. -/
theorem tombstone_pushed_delete_witness :
    tombstone5.is_deleted = 1 ∧ tombstone5.remote_id = some 5 ∧ (5 : Nat) ≠ 0 ∧
    stDeleteFail.schedule = true :: [] ∧
    pushOne tombstone5 stDeleteFail = Res.error SyncErr.remoteUnavailable
      { stDeleteFail with schedule := [], trace := [RemoteCall.delete 5] } :=
  ⟨by decide, by decide, by decide, by decide,
    (tombstone_pushed_delete stDeleteFail tombstone5 5
      (by decide) (by decide) (by decide)).1 [] (by decide)⟩

/-- C7 counterexample: a record created by the local create operation
(`INSERT INTO todos (text) VALUES (?)`) starts with `dirty = 0` — the
schema default, since the insert sets only `text` — not `dirty = true` as
claimed; it is a push candidate only because `remote_id` is null. -/
theorem addTodo_starts_clean_cex :
    (handleAddTodo "a" stEmpty).todos = [newTodo 1 "a" 10] ∧
    (newTodo 1 "a" 10).dirty = 0 ∧ (newTodo 1 "a" 10).remote_id = none := by
  exact ⟨by decide, by decide, by decide⟩

/-- C7 amended: a record created by the local create operation starts with
`dirty = 0` and `remote_id = null` (it is nevertheless a push candidate,
through the `remote_id IS NULL` half of the candidate predicate); the
toggle and delete mutations do set `dirty = 1` on the targeted row. -/
theorem local_mutations_and_dirty (st : SyncState) (txt : String) (i cur : Nat) :
    ((strTrim txt).data.isEmpty = false →
      handleAddTodo txt st =
        { st with
          todos := st.todos ++ [newTodo st.nextLocalId txt st.now]
          nextLocalId := st.nextLocalId + 1 } ∧
      (newTodo st.nextLocalId txt st.now).dirty = 0 ∧
      (newTodo st.nextLocalId txt st.now).remote_id = none ∧
      isSyncCandidate (newTodo st.nextLocalId txt st.now) = true) ∧
    (∀ t ∈ (handleToggleTodo i cur st).todos, t.id = i → t.dirty = 1) ∧
    (∀ t ∈ (handleDeleteTodo i st).todos, t.id = i → t.dirty = 1) := by
  refine ⟨?_, ?_, ?_⟩
  · intro hne
    refine ⟨?_, rfl, rfl, rfl⟩
    unfold handleAddTodo
    rw [if_neg (by simp [hne])]
  · intro t ht hid
    unfold handleToggleTodo at ht
    obtain ⟨t0, ht0, ht0e⟩ := List.mem_map.mp ht
    by_cases hm : (t0.id == i) = true
    · rw [if_pos hm] at ht0e
      rw [← ht0e]
    · rw [if_neg hm] at ht0e
      exact absurd (beq_iff_eq.mpr (ht0e ▸ hid)) hm
  · intro t ht hid
    unfold handleDeleteTodo at ht
    obtain ⟨t0, ht0, ht0e⟩ := List.mem_map.mp ht
    by_cases hm : (t0.id == i) = true
    · rw [if_pos hm] at ht0e
      rw [← ht0e]
    · rw [if_neg hm] at ht0e
      exact absurd (beq_iff_eq.mpr (ht0e ▸ hid)) hm

/-- Witness for C7's amended statement at concrete mutations. -/
theorem local_mutations_and_dirty_witness :
    (strTrim "a").data.isEmpty = false ∧
    (handleAddTodo "a" stEmpty =
      { stEmpty with
        todos := stEmpty.todos ++ [newTodo stEmpty.nextLocalId "a" stEmpty.now]
        nextLocalId := stEmpty.nextLocalId + 1 } ∧
     (newTodo stEmpty.nextLocalId "a" stEmpty.now).dirty = 0 ∧
     (newTodo stEmpty.nextLocalId "a" stEmpty.now).remote_id = none ∧
     isSyncCandidate (newTodo stEmpty.nextLocalId "a" stEmpty.now) = true) ∧
    toggledRow3 ∈ (handleToggleTodo 1 0 stClean3).todos ∧ toggledRow3.id = 1 ∧
    toggledRow3.dirty = 1 ∧
    deletedRow3 ∈ (handleDeleteTodo 1 stClean3).todos ∧ deletedRow3.id = 1 ∧
    deletedRow3.dirty = 1 :=
  ⟨by decide,
    (local_mutations_and_dirty stEmpty "a" 1 0).1 (by decide),
    by decide, by decide,
    (local_mutations_and_dirty stClean3 "a" 1 0).2.1 toggledRow3 (by decide) (by decide),
    by decide, by decide,
    (local_mutations_and_dirty stClean3 "a" 1 0).2.2 deletedRow3 (by decide) (by decide)⟩

/-- C8 counterexample: two visible rows share `created_at = 5`; the query
(`ORDER BY created_at DESC` with no tie-break clause, modelled as a stable
sort over the table scan) returns them in rowid order — ascending local id
— not in the claimed local-id-descending order. -/
theorem fetchTodos_tiebreak_cex :
    fetchTodos stTie = [rowTieA, rowTieB] ∧
    rowTieA.created_at = rowTieB.created_at ∧ rowTieA.id < rowTieB.id := by
  exact ⟨by decide, by decide, by decide⟩

/-- C8 amended: `fetchTodos` returns exactly the non-tombstoned rows
(`is_deleted = 0`), sorted by `created_at` descending; rows with equal
`created_at` keep their table (rowid) order — the query has no secondary
sort key, so no local-id-descending tie-break exists. -/
theorem fetchTodos_ordered (st : SyncState) :
    List.Perm (fetchTodos st) (st.todos.filter (fun t => t.is_deleted == 0)) ∧
    List.Pairwise (fun a b => b.created_at ≤ a.created_at) (fetchTodos st) ∧
    (∀ c : Nat, (fetchTodos st).filter (fun x => x.created_at == c) =
      (st.todos.filter (fun t => t.is_deleted == 0)).filter
        (fun x => x.created_at == c)) :=
  ⟨sortByCreatedDesc_perm _, sortByCreatedDesc_sorted _,
    fun c => sortByCreatedDesc_filter c _⟩

/-- C9: the only tombstoning operation, `handleDeleteTodo`, sets
`is_deleted = 1` and `dirty = 1` together, so every tombstoned row
satisfies the push-candidate predicate; such a row is selected by the next
round's push phase and erased (whenever the push phase completes, which an
empty failure schedule guarantees), and its dirty flag protects it from the
pull phase's clean-only local delete. -/
theorem tombstone_dirty_selected_erased :
    (∀ (st : SyncState) (i : Nat), ∀ t ∈ (handleDeleteTodo i st).todos, t.id = i →
      t.is_deleted = 1 ∧ t.dirty = 1 ∧ isSyncCandidate t = true) ∧
    (∀ (st : SyncState) (t : Todo), st.schedule = [] → t ∈ st.todos →
      t.is_deleted = 1 → t.dirty = 1 →
      ∀ s', pushAll (listSyncCandidates st) st = Res.ok () s' →
      ∀ u ∈ s'.todos, u.id ≠ t.id) ∧
    (∀ (ids : List Nat) (st : SyncState), ∀ t ∈ st.todos, t.dirty = 1 →
      t ∈ (pullDelete ids st).todos) := by
  refine ⟨?_, ?_, ?_⟩
  · intro st i t ht hid
    unfold handleDeleteTodo at ht
    obtain ⟨t0, ht0, ht0e⟩ := List.mem_map.mp ht
    by_cases hm : (t0.id == i) = true
    · rw [if_pos hm] at ht0e
      refine ⟨by rw [← ht0e], by rw [← ht0e], ?_⟩
      have hd : t.dirty = 1 := by rw [← ht0e]
      unfold isSyncCandidate
      simp [hd]
    · rw [if_neg hm] at ht0e
      exact absurd (beq_iff_eq.mpr (ht0e ▸ hid)) hm
  · intro st t hsch htm hdel hdirty s' hps
    rw [pushAll_nil _ _ hsch] at hps
    have hseq : pushAllPure (listSyncCandidates st) st = s' := by
      injection hps
    subst hseq
    apply pushAllPure_erases_tombstone (listSyncCandidates st) st t ?_ hdel
    refine List.mem_filter.mpr ⟨htm, ?_⟩
    unfold isSyncCandidate
    simp [hdirty]
  · intro ids st t ht hd
    unfold pullDelete
    split
    · exact List.mem_filter.mpr ⟨ht, by simp [hd]⟩
    · exact List.mem_filter.mpr ⟨ht, by simp [hd]⟩

/-- Witness for C9 at concrete stores: the deleted row is tombstoned,
dirty and a candidate; the tombstoned dirty row of `stTomb3` is gone from
the push phase's result; a dirty row survives the pull-phase delete. -/
theorem tombstone_dirty_selected_erased_witness :
    deletedRow3 ∈ (handleDeleteTodo 1 stClean3).todos ∧ deletedRow3.id = 1 ∧
    (deletedRow3.is_deleted = 1 ∧ deletedRow3.dirty = 1 ∧
      isSyncCandidate deletedRow3 = true) ∧
    (stTomb3.schedule = [] ∧ tombRow3 ∈ stTomb3.todos ∧
      pushAll (listSyncCandidates stTomb3) stTomb3 = Res.ok ()
        { stTomb3 with todos := [], remote := [], trace := [RemoteCall.delete 3] } ∧
      (∀ u ∈ ({ stTomb3 with
          todos := [], remote := [], trace := [RemoteCall.delete 3] } : SyncState).todos,
        u.id ≠ tombRow3.id)) ∧
    tombRow3 ∈ (pullDelete [] stTomb3).todos :=
  ⟨by decide, by decide,
    tombstone_dirty_selected_erased.1 stClean3 1 deletedRow3 (by decide) (by decide),
    ⟨rfl, by decide, by decide,
      tombstone_dirty_selected_erased.2.1 stTomb3 tombRow3 rfl (by decide) (by decide)
        (by decide) _ (by decide)⟩,
    tombstone_dirty_selected_erased.2.2 [] stTomb3 tombRow3 (by decide) (by decide)⟩

/-- C10: when a local row already matches the snapshot row's `remote_id`,
the upsert only maps `mergeRemote` over the local table (no row is added
or removed, the remote table and the id counter are untouched), and
`mergeRemote` changes at most `text` and `completed` — `id`, `remote_id`,
`dirty`, `is_deleted` and `created_at` are preserved in every case, and a
row with `dirty ≠ 0` is left entirely unchanged; hence a pull can neither
resurrect a tombstoned row nor change any dirty flag. -/
theorem upsert_frame (st : SyncState) (r : RemoteTodo) (t : Todo)
    (hex : st.todos.any (fun x => x.remote_id == some r.id) = true) :
    (upsertFromRemote r st).todos = st.todos.map (mergeRemote r) ∧
    (upsertFromRemote r st).remote = st.remote ∧
    (upsertFromRemote r st).nextLocalId = st.nextLocalId ∧
    (mergeRemote r t).id = t.id ∧ (mergeRemote r t).remote_id = t.remote_id ∧
    (mergeRemote r t).dirty = t.dirty ∧ (mergeRemote r t).is_deleted = t.is_deleted ∧
    (mergeRemote r t).created_at = t.created_at ∧
    (t.dirty ≠ 0 → mergeRemote r t = t) := by
  have hf := mergeRemote_frame r t
  refine ⟨?_, ?_, ?_, hf.1, hf.2.1, hf.2.2.1, hf.2.2.2.1, hf.2.2.2.2,
    fun hd => mergeRemote_dirty_ne hd⟩
  · unfold upsertFromRemote
    rw [if_pos hex]
  · unfold upsertFromRemote
    rw [if_pos hex]
  · unfold upsertFromRemote
    rw [if_pos hex]

/-- Witness for C10: the tombstoned-and-dirty shape is preserved by the
merge at a concrete matching row. -/
theorem upsert_frame_witness :
    (stDirty7.todos.any (fun x => x.remote_id == some remoteRow7.id) = true) ∧
    ((upsertFromRemote remoteRow7 stDirty7).todos
        = stDirty7.todos.map (mergeRemote remoteRow7) ∧
     (upsertFromRemote remoteRow7 stDirty7).remote = stDirty7.remote ∧
     (upsertFromRemote remoteRow7 stDirty7).nextLocalId = stDirty7.nextLocalId ∧
     (mergeRemote remoteRow7 dirtyRow7).id = dirtyRow7.id ∧
     (mergeRemote remoteRow7 dirtyRow7).remote_id = dirtyRow7.remote_id ∧
     (mergeRemote remoteRow7 dirtyRow7).dirty = dirtyRow7.dirty ∧
     (mergeRemote remoteRow7 dirtyRow7).is_deleted = dirtyRow7.is_deleted ∧
     (mergeRemote remoteRow7 dirtyRow7).created_at = dirtyRow7.created_at ∧
     (dirtyRow7.dirty ≠ 0 → mergeRemote remoteRow7 dirtyRow7 = dirtyRow7)) :=
  ⟨by decide, upsert_frame stDirty7 remoteRow7 dirtyRow7 (by decide)⟩
